import Mathlib

/-!
Verification of the review-manager repository: a shallow embedding of the
data-access layer (src/lib/db.ts), the room-settings caller
(src/components/RoomSettings.tsx, src/components/AddReviewForm.tsx) and the
Google Chat mention formatter (googleChat module), together with theorems
settling the specification claims about them.

Conventions of the embedding:
* Firestore server timestamps are modelled as `Nat` values passed in
  explicitly as `now`.
* A Firestore collection is an association list from document id to
  document; `getDoc`, `updateDoc`, `deleteDoc`, `setDoc` are modelled on it.
* TypeScript `undefined`/`null` optional fields become `Option`.
* Thrown errors become `Except DbError`.
* The external member-directory fetch performed by `fetchGoogleChatMembers`
  is abstracted by an explicit `fetchResult` argument: the map the fetch
  resolves to, `[]` when the fetch fails or returns nothing (the TypeScript
  function catches every failure and returns an empty map).
-/

namespace ReviewManager

/-- Lower-case a string character by character; models JavaScript
`String.prototype.toLowerCase` as used on ASCII emails. -/
def toLowerStr (s : String) : String := ⟨s.data.map Char.toLower⟩

/-- Strip leading and trailing whitespace; models JavaScript
`String.prototype.trim`. -/
def trimStr (s : String) : String :=
  ⟨((s.data.dropWhile Char.isWhitespace).reverse.dropWhile Char.isWhitespace).reverse⟩

/-- Drop everything up to and including the first occurrence of the
scheme separator sequence colon-slash-slash; models the scheme parsing
done by the `new URL(...)` constructor, returning `none` when the string
has no such separator (the constructor would throw). -/
def afterMarker : List Char → Option (List Char)
  | ':' :: '/' :: '/' :: rest => some rest
  | _ :: rest => afterMarker rest
  | [] => none

/-- Split a character list on a separator character, keeping empty
segments; models JavaScript `String.prototype.split`. -/
def splitOnChar (sep : Char) : List Char → List (List Char)
  | [] => [[]]
  | c :: rest =>
    let r := splitOnChar sep rest
    if c = sep then [] :: r
    else match r with
      | h :: t => (c :: h) :: t
      | [] => [[c]]

/-- Pathname of a URL: the part from the first slash after the
scheme-and-host up to a query or fragment delimiter; models the
`url.pathname` read in `extractSpaceName` (src/app googleChat module).
Returns `none` when the URL has no scheme separator, modelling a
`new URL` constructor throw, which the source catches and turns into
`null`. -/
def urlPathname (url : String) : Option String :=
  match afterMarker url.data with
  | none => none
  | some rest =>
    let path := rest.dropWhile (fun c => c != '/')
    some ⟨path.takeWhile (fun c => c != '?' && c != '#')⟩

/-- Generic association-list read, modelling `Map.prototype.get`. -/
def assocGet {α : Type} (m : List (String × α)) (k : String) : Option α :=
  (m.find? (fun p => p.1 == k)).map Prod.snd

/-- Generic association-list write, modelling `Map.prototype.set`:
overwrite in place when the key exists, append otherwise (JavaScript
maps preserve insertion order). -/
def assocSet {α : Type} (m : List (String × α)) (k : String) (v : α) :
    List (String × α) :=
  if m.any (fun p => p.1 == k) then m.map (fun p => if p.1 == k then (k, v) else p)
  else m ++ [(k, v)]

/-! Review data model, from the `Review` interface of src/lib/db.ts. -/

/-- Per-assignee review state, from the `assignees` field type of
`Review` in src/lib/db.ts. -/
inductive AssigneeStatus
  | pending
  | reviewed
deriving DecidableEq, Repr

/-- One entry of a review's `assignees` array. -/
structure Assignee where
  email : String
  status : AssigneeStatus
deriving DecidableEq, Repr

/-- Review lifecycle status, from the `status` field of `Review` in
src/lib/db.ts. -/
inductive ReviewStatus
  | active
  | done
  | deleted
deriving DecidableEq, Repr

/-- The argument type of `updateReviewStatus` in src/lib/db.ts, which
accepts only the two terminal statuses. -/
inductive TerminalStatus
  | done
  | deleted
deriving DecidableEq, Repr

/-- Inclusion of the terminal statuses into `ReviewStatus`. -/
def TerminalStatus.toStatus : TerminalStatus → ReviewStatus
  | .done => .done
  | .deleted => .deleted

/-- A review document, from the `Review` interface of src/lib/db.ts
(the current schema, with `reviewedBy` and `approvedBy` logs). The `id`
is kept outside the document, as the association-list key. -/
structure Review where
  roomId : String
  title : String
  link : String
  status : ReviewStatus
  createdBy : String
  createdAt : Nat
  updatedAt : Nat
  assignees : List Assignee
  reviewedBy : List String
  approvedBy : List String
deriving DecidableEq, Repr

/-- The `reviews` Firestore collection: document id paired with the
document. -/
abbrev Store := List (String × Review)

/-- Errors thrown by the data-access layer of src/lib/db.ts. -/
inductive DbError
  | notFound
  | slugExists
deriving DecidableEq, Repr

/-- Firestore `getDoc` on the reviews collection. -/
def getDoc (store : Store) (reviewId : String) : Option Review :=
  (store.find? (fun p => p.1 == reviewId)).map Prod.snd

/-- Firestore `updateDoc` on the reviews collection: replace the fields
of the document with the given id. -/
def updateDoc (store : Store) (reviewId : String) (f : Review → Review) : Store :=
  store.map (fun p => if p.1 == reviewId then (p.1, f p.2) else p)

/-- Firestore `deleteDoc` on the reviews collection. -/
def deleteDoc (store : Store) (reviewId : String) : Store :=
  store.filter (fun p => !(p.1 == reviewId))

/-- Result set of the Firestore query used by the queue-maintenance
functions of src/lib/db.ts: all reviews of a room with the given
status (the two `where` clauses), before ordering. -/
def byStatusInRoom (store : Store) (roomId : String) (st : ReviewStatus) :
    List (String × Review) :=
  store.filter (fun p => decide (p.2.roomId = roomId ∧ p.2.status = st))

/-- Firestore query of src/lib/db.ts `manageDoneReviewsQueue` and
`manageDeletedReviewsQueue`: all reviews of a room with the given
status, ordered by `updatedAt` ascending. -/
def reviewsByStatusOrdered (store : Store) (roomId : String) (st : ReviewStatus) :
    List (String × Review) :=
  (byStatusInRoom store roomId st).insertionSort
    (fun a b => a.2.updatedAt ≤ b.2.updatedAt)

/-- Function `manageDoneReviewsQueue` of src/lib/db.ts: query the room's
done reviews ordered by `updatedAt` ascending and, when more than 10
exist, permanently delete the oldest excess. -/
def manageDoneReviewsQueue (store : Store) (roomId : String) : Store :=
  if (reviewsByStatusOrdered store roomId .done).length > 10 then
    ((reviewsByStatusOrdered store roomId .done).take
        ((reviewsByStatusOrdered store roomId .done).length - 10)).foldl
      (fun s p => deleteDoc s p.1) store
  else store

/-- Function `manageDeletedReviewsQueue` of src/lib/db.ts, identical to
the done queue but for the deleted status. -/
def manageDeletedReviewsQueue (store : Store) (roomId : String) : Store :=
  if (reviewsByStatusOrdered store roomId .deleted).length > 10 then
    ((reviewsByStatusOrdered store roomId .deleted).take
        ((reviewsByStatusOrdered store roomId .deleted).length - 10)).foldl
      (fun s p => deleteDoc s p.1) store
  else store

/-- Function `addReview` of src/lib/db.ts: create a review with status
`active`, empty `reviewedBy` and `approvedBy` logs, both timestamps set
to now, and the caller-supplied title, link, creator and assignees.
Firestore `addDoc` generates the fresh document id; it is passed in as
`newId`. Returns the new store and the id. -/
def addReview (store : Store) (newId roomId title link createdBy : String)
    (assignees : List Assignee) (now : Nat) : Store × String :=
  (store ++ [(newId,
    { roomId := roomId, title := title, link := link, status := .active,
      createdBy := createdBy, createdAt := now, updatedAt := now,
      assignees := assignees, reviewedBy := [], approvedBy := [] })], newId)

/-- Function `updateReviewStatus` of src/lib/db.ts: throw when the
review does not exist; otherwise write the terminal status and a fresh
`updatedAt`, then run the queue maintenance for that status in the
review's room. -/
def updateReviewStatus (store : Store) (reviewId : String) (status : TerminalStatus)
    (now : Nat) : Except DbError Store :=
  match getDoc store reviewId with
  | none => .error .notFound
  | some review =>
    let store1 := updateDoc store reviewId
      (fun r => { r with status := status.toStatus, updatedAt := now })
    let store2 := if status = .deleted then manageDeletedReviewsQueue store1 review.roomId
                  else store1
    let store3 := if status = .done then manageDoneReviewsQueue store2 review.roomId
                  else store2
    .ok store3

/-- Function `markReviewAsUpdated` of src/lib/db.ts: silently return
when the review does not exist; otherwise reset every assignee to
pending and advance `updatedAt`. -/
def markReviewAsUpdated (store : Store) (reviewId : String) (now : Nat) :
    Except DbError Store :=
  match getDoc store reviewId with
  | none => .ok store
  | some review =>
    let resetAssignees := review.assignees.map (fun a => { a with status := .pending })
    .ok (updateDoc store reviewId
      (fun r => { r with assignees := resetAssignees, updatedAt := now }))

/-- Function `markAsReviewed` of src/lib/db.ts: silently return when the
review does not exist; otherwise set the matching assignee's status to
reviewed, append the user to `reviewedBy` when not already present, and
advance `updatedAt`. -/
def markAsReviewed (store : Store) (reviewId userEmail : String) (now : Nat) :
    Except DbError Store :=
  match getDoc store reviewId with
  | none => .ok store
  | some review =>
    let updatedAssignees := review.assignees.map (fun a =>
      if a.email = userEmail then { a with status := .reviewed } else a)
    let reviewedBy := review.reviewedBy
    let updatedReviewedBy :=
      if reviewedBy.contains userEmail then reviewedBy else reviewedBy ++ [userEmail]
    .ok (updateDoc store reviewId (fun r =>
      { r with assignees := updatedAssignees, reviewedBy := updatedReviewedBy,
               updatedAt := now }))

/-- Function `updateReviewAssignees` of src/lib/db.ts: throw when the
review does not exist; otherwise replace the assignee list wholesale
and advance `updatedAt`. -/
def updateReviewAssignees (store : Store) (reviewId : String)
    (assignees : List Assignee) (now : Nat) : Except DbError Store :=
  match getDoc store reviewId with
  | none => .error .notFound
  | some _ =>
    .ok (updateDoc store reviewId (fun r =>
      { r with assignees := assignees, updatedAt := now }))

/-- Function `removeReviewer` of src/lib/db.ts: throw when the review
does not exist; otherwise drop the assignee with the given email,
advance `updatedAt`, and report whether no reviewers are left. -/
def removeReviewer (store : Store) (reviewId userEmail : String) (now : Nat) :
    Except DbError (Store × Bool) :=
  match getDoc store reviewId with
  | none => .error .notFound
  | some review =>
    let updatedAssignees := review.assignees.filter (fun a => !(a.email == userEmail))
    .ok (updateDoc store reviewId (fun r =>
      { r with assignees := updatedAssignees, updatedAt := now }),
      updatedAssignees.length == 0)

/-- Erase both timestamps of a review, for statements that compare
states with timestamps abstracted. -/
def stripTimes (r : Review) : Review := { r with createdAt := 0, updatedAt := 0 }

/-- Erase all timestamps in a store. -/
def stripStoreTimes (s : Store) : Store := s.map (fun p => (p.1, stripTimes p.2))

/-! Room data model and operations, from src/lib/db.ts. -/

/-- One entry of a room's `allowedUsers` array. -/
structure AllowedUser where
  email : String
  googleChatUserId : Option String
deriving DecidableEq, Repr

/-- Function `cleanAllowedUsers` of src/lib/db.ts: keep only the email,
re-adding `googleChatUserId` only when it is neither undefined, null,
empty, nor whitespace-only. -/
def cleanAllowedUsers (users : List AllowedUser) : List AllowedUser :=
  users.map (fun user =>
    match user.googleChatUserId with
    | some id =>
      if trimStr id = "" then { email := user.email, googleChatUserId := none }
      else { email := user.email, googleChatUserId := some id }
    | none => { email := user.email, googleChatUserId := none })

/-- Function `extractAllowedUserEmails` of src/lib/db.ts: the lower-cased
emails of the allowed users, for the Firestore rules helper field. -/
def extractAllowedUserEmails (users : List AllowedUser) : List String :=
  users.map (fun user => toLowerStr user.email)

/-- A room document, from the `Room` interface of src/lib/db.ts.
`allowedUserEmails` is the optional helper field for Firestore rules. -/
structure Room where
  slug : String
  name : String
  webhookUrl : String
  allowedUsers : List AllowedUser
  allowedUserEmails : Option (List String)
  createdBy : String
  createdAt : Nat
deriving DecidableEq, Repr

/-- The `rooms` Firestore collection, keyed by slug. -/
abbrev RoomStore := List (String × Room)

/-- Argument of `createRoom` in src/lib/db.ts: a room without the
server-assigned `createdAt` (callers never pass `allowedUserEmails`). -/
structure NewRoomData where
  slug : String
  name : String
  webhookUrl : String
  allowedUsers : List AllowedUser
  createdBy : String
deriving DecidableEq, Repr

/-- Argument of `updateRoom` in src/lib/db.ts: a partial room update;
`none` means the field is absent from the update object. -/
structure RoomUpdates where
  name : Option String
  webhookUrl : Option String
  allowedUsers : Option (List AllowedUser)
  allowedUserEmails : Option (List String)
deriving DecidableEq, Repr

/-- Firestore `getDoc` on the rooms collection, as read by `getRoom`,
`createRoom` and `updateRoom` of src/lib/db.ts. -/
def getRoomDoc (store : RoomStore) (slug : String) : Option Room :=
  (store.find? (fun p => p.1 == slug)).map Prod.snd

/-- Function `createRoom` of src/lib/db.ts: throw when the slug is
taken; otherwise store the room with cleaned `allowedUsers`, the
`allowedUserEmails` helper extracted from the raw input, and `createdAt`
set to the server time. -/
def createRoom (store : RoomStore) (data : NewRoomData) (now : Nat) :
    Except DbError RoomStore :=
  if (getRoomDoc store data.slug).isSome then .error .slugExists
  else .ok (store ++ [(data.slug,
    { slug := data.slug, name := data.name, webhookUrl := data.webhookUrl,
      allowedUsers := cleanAllowedUsers data.allowedUsers,
      allowedUserEmails := some (extractAllowedUserEmails data.allowedUsers),
      createdBy := data.createdBy, createdAt := now })])

/-- Merge of an update object into a room document, modelling Firestore
`updateDoc` field-merge semantics: present fields replace, absent
fields are kept. -/
def applyRoomUpdates (r : Room) (u : RoomUpdates) : Room :=
  { r with
    name := u.name.getD r.name,
    webhookUrl := u.webhookUrl.getD r.webhookUrl,
    allowedUsers := u.allowedUsers.getD r.allowedUsers,
    allowedUserEmails :=
      match u.allowedUserEmails with
      | some es => some es
      | none => r.allowedUserEmails }

/-- Function `updateRoom` of src/lib/db.ts: throw when the room does not
exist; otherwise, when the update carries `allowedUsers`, replace it by
its cleaned form and refresh the `allowedUserEmails` helper, then merge
the update into the stored document. -/
def updateRoom (store : RoomStore) (slug : String) (updates : RoomUpdates) :
    Except DbError RoomStore :=
  match getRoomDoc store slug with
  | none => .error .notFound
  | some _ =>
    let cleanedUpdates :=
      match updates.allowedUsers with
      | some us =>
        { updates with
          allowedUsers := some (cleanAllowedUsers us),
          allowedUserEmails := some (extractAllowedUserEmails (cleanAllowedUsers us)) }
      | none => updates
    .ok (store.map (fun p =>
      if p.1 == slug then (p.1, applyRoomUpdates p.2 cleanedUpdates) else p))

/-- Handler `handleRemoveUser` of src/components/RoomSettings.tsx,
reduced to its state transition on the allowed-users list: removing the
room creator is refused (the list is unchanged), any other email is
filtered out. -/
def handleRemoveUser (createdBy : String) (users : List AllowedUser)
    (email : String) : List AllowedUser :=
  if email = createdBy then users
  else users.filter (fun u => !(u.email == email))

/-- Assignee construction of `handleSubmit` in
src/components/AddReviewForm.tsx: each mentioned email becomes a
pending assignee. -/
def submitAssignees (mentions : List String) : List Assignee :=
  mentions.map (fun email => { email := email, status := .pending })

/-! Google Chat mention formatter, from the googleChat module. -/

/-- An email-to-user-id map, modelling the JavaScript `Map` objects of
the googleChat module as insertion-ordered association lists. -/
abbrev StrMap := List (String × String)

/-- Function `extractSpaceName` of the googleChat module: the path
segment following `spaces` in the webhook URL, `null` on a parse
failure, a missing segment, or an empty segment. -/
def extractSpaceName (webhookUrl : String) : Option String :=
  match urlPathname webhookUrl with
  | none => none
  | some pathname =>
    let pathParts := (splitOnChar '/' pathname.data).map (fun cs => (⟨cs⟩ : String))
    match pathParts.findIdx? (fun s => s == "spaces") with
    | none => none
    | some i =>
      match pathParts.get? (i + 1) with
      | some s => if s = "" then none else some s
      | none => none

/-- Directory map built at the top of `formatMentions`: for each allowed
user with a truthy email and a truthy `googleChatUserId`, map the
lower-cased email to the id. -/
def buildDirectoryMap (allowedUsers : List AllowedUser) : StrMap :=
  allowedUsers.foldl (fun m user =>
    match user.googleChatUserId with
    | some id =>
      if user.email ≠ "" ∧ id ≠ "" then assocSet m (toLowerStr user.email) id else m
    | none => m) []

/-- Merge of two maps as done by `new Map` over spread entries in
`formatMentions`: entries of the second override those of the first. -/
def mapMerge (a b : StrMap) : StrMap := b.foldl (fun m p => assocSet m p.1 p.2) a

/-- The module-level mention cache of the googleChat module: `userCache`
maps a space name to its fetched member map, `cacheExpiry` to the
expiry instant. -/
structure MentionCache where
  userCache : List (String × StrMap)
  cacheExpiry : List (String × Nat)
deriving DecidableEq, Repr

/-- The cache TTL constant `CACHE_DURATION` of the googleChat module:
five minutes in milliseconds. -/
def CACHE_DURATION : Nat := 5 * 60 * 1000

/-- Result of one `formatMentions` run: the returned text, the resolved
email-to-id map it used, whether the external fetch was attempted, and
the cache state afterwards. -/
structure MentionsOutcome where
  text : String
  resolvedMap : StrMap
  didFetch : Bool
  cache : MentionCache
deriving DecidableEq, Repr

/-- Mention token emitted for one email by `formatMentions`: the
resolved user id when the lower-cased email is in the map, the raw
email otherwise, both wrapped in Google Chat user-mention syntax. -/
def mentionToken (m : StrMap) (email : String) : String :=
  match assocGet m (toLowerStr email) with
  | some userId => "<users/" ++ userId ++ ">"
  | none => "<users/" ++ email ++ ">"

/-- Fetch branch of `formatMentions`: the external fetch is attempted;
when it resolves to a non-empty map the cache is refreshed and the map
merged in, otherwise (also on a swallowed failure) nothing changes. -/
def fetchStep (m0 : StrMap) (spaceName : String) (cache : MentionCache) (now : Nat)
    (fetchResult : StrMap) : StrMap × Bool × MentionCache :=
  if fetchResult.isEmpty then (m0, true, cache)
  else (mapMerge m0 fetchResult, true,
    { userCache := assocSet cache.userCache spaceName fetchResult,
      cacheExpiry := assocSet cache.cacheExpiry spaceName (now + CACHE_DURATION) })

/-- Cache consultation of `formatMentions`: given the cache entry for
the space (the argument of this function), use it when it has not
expired, otherwise attempt the external fetch — exactly the
`cached && Date.now() < expiry` branch of the source. -/
def useCacheEntry (m0 : StrMap) (spaceName : String) (cache : MentionCache)
    (now : Nat) (fetchResult : StrMap) :
    Option StrMap → StrMap × Bool × MentionCache
  | some cached =>
    if now < (assocGet cache.cacheExpiry spaceName).getD 0 then
      (mapMerge m0 cached, false, cache)
    else fetchStep m0 spaceName cache now fetchResult
  | none => fetchStep m0 spaceName cache now fetchResult

/-- Space-name gate of `formatMentions`: when no space name could be
extracted from the webhook URL nothing happens; otherwise the cache is
consulted. -/
def withSpaceName (m0 : StrMap) (cache : MentionCache) (now : Nat)
    (fetchResult : StrMap) : Option String → StrMap × Bool × MentionCache
  | some spaceName =>
    useCacheEntry m0 spaceName cache now fetchResult
      (assocGet cache.userCache spaceName)
  | none => (m0, false, cache)

/-- Map-resolution phase of `formatMentions` in the googleChat module:
start from the explicit directory map; when it is empty and a non-empty
webhook URL is given, run the space-name-gated cache-or-fetch step.
Returns the resolved map, whether the fetch was attempted, and the
cache afterwards. -/
def resolveStep (allowedUsers : List AllowedUser) (cache : MentionCache)
    (now : Nat) (fetchResult : StrMap) :
    Option String → StrMap × Bool × MentionCache
  | some w =>
    if w ≠ "" ∧ (buildDirectoryMap allowedUsers).isEmpty then
      withSpaceName (buildDirectoryMap allowedUsers) cache now fetchResult
        (extractSpaceName w)
    else (buildDirectoryMap allowedUsers, false, cache)
  | none => (buildDirectoryMap allowedUsers, false, cache)

/-- Function `formatMentions` of the googleChat module: build the
explicit directory map; when it is empty and a webhook URL with an
extractable space name is given, consult the TTL cache and otherwise
attempt the external fetch (whose outcome is the `fetchResult`
argument; the access token is merely forwarded to that fetch); finally
emit one mention token per input email, space-joined in input order. -/
def formatMentions (emails : List String) (allowedUsers : List AllowedUser)
    (webhookUrl : Option String) (accessToken : Option String)
    (cache : MentionCache) (now : Nat) (fetchResult : StrMap) : MentionsOutcome :=
  let resolved := resolveStep allowedUsers cache now fetchResult webhookUrl
  { text := String.intercalate " " (emails.map (mentionToken resolved.1)),
    resolvedMap := resolved.1,
    didFetch := resolved.2.1,
    cache := resolved.2.2 }

end ReviewManager

deriving instance DecidableEq for Except

namespace ReviewManager

/-- Sample room used by concrete witnesses and counterexamples. -/
def sampleRoom : Room where
  slug := "team-a"
  name := "Team A"
  webhookUrl := ""
  allowedUsers := [⟨"a@x.com", none⟩]
  allowedUserEmails := none
  createdBy := "a@x.com"
  createdAt := 0

/-- Sample review used by concrete witnesses and counterexamples. -/
def sampleReview : Review where
  roomId := "team-a"
  title := "PR1"
  link := "http://x/1"
  status := .active
  createdBy := "a@x.com"
  createdAt := 0
  updatedAt := 0
  assignees := [⟨"b@x.com", .pending⟩]
  reviewedBy := []
  approvedBy := []

/-! Helper lemmas about the store operations. -/

/-- Updating a keyed association list and then looking up the key finds
the updated value. -/
lemma find?_map_update {α : Type} (s : List (String × α)) (k : String) (f : α → α) :
    ((s.map (fun p => if p.1 == k then (p.1, f p.2) else p)).find? (fun p => p.1 == k))
      = ((s.find? (fun p => p.1 == k)).map (fun p => (p.1, f p.2))) := by
  induction s with
  | nil => rfl
  | cons p t ih =>
    by_cases h : p.1 = k
    · simp [List.find?, h]
    · have hb : (p.1 == k) = false := by simpa using h
      simpa [List.find?, hb] using ih

/-- Reading back the updated review document. -/
lemma getDoc_updateDoc_self (s : Store) (k : String) (f : Review → Review) :
    getDoc (updateDoc s k f) k = (getDoc s k).map f := by
  unfold getDoc updateDoc
  rw [find?_map_update]
  cases s.find? (fun p => p.1 == k) <;> rfl

/-- Document keys are unchanged by `updateDoc`. -/
lemma map_fst_updateDoc (s : Store) (k : String) (f : Review → Review) :
    (updateDoc s k f).map Prod.fst = s.map Prod.fst := by
  unfold updateDoc
  rw [List.map_map]
  apply List.map_congr_left
  intro p _
  by_cases h : p.1 = k <;> simp [h]

/-- Sample review with a mixed assignee state, used by concrete
witnesses. -/
def sampleReviewMixed : Review :=
  { sampleReview with
    assignees := [⟨"b@x.com", .reviewed⟩, ⟨"c@x.com", .pending⟩],
    updatedAt := 3 }

/-- C3: for every review present in the store, `markReviewAsUpdated`
succeeds, afterwards every assignee of that review has status pending
regardless of the prior mix, and `updatedAt` has advanced (it is set to
the current server time, which is later than the stored one). -/
theorem markReviewAsUpdated_all_pending (store : Store) (reviewId : String)
    (now : Nat) (r : Review) (hget : getDoc store reviewId = some r)
    (hclock : r.updatedAt < now) :
    ∃ s', markReviewAsUpdated store reviewId now = .ok s' ∧
      ∃ r', getDoc s' reviewId = some r' ∧
        (∀ a ∈ r'.assignees, a.status = .pending) ∧
        r.updatedAt < r'.updatedAt := by
  refine ⟨updateDoc store reviewId (fun x =>
    { x with assignees := r.assignees.map (fun a => { a with status := .pending }),
             updatedAt := now }), ?_, ?_⟩
  · unfold markReviewAsUpdated
    rw [hget]
  · rw [getDoc_updateDoc_self, hget]
    refine ⟨_, rfl, ?_, hclock⟩
    intro a ha
    simp only [List.mem_map] at ha
    obtain ⟨b, _, rfl⟩ := ha
    rfl

/-- Witness for C3 at a concrete review with one reviewed and one
pending assignee. -/
theorem markReviewAsUpdated_all_pending_witness :
    getDoc [("r1", sampleReviewMixed)] "r1" = some sampleReviewMixed ∧
    sampleReviewMixed.updatedAt < 9 ∧
    ∃ s', markReviewAsUpdated [("r1", sampleReviewMixed)] "r1" 9 = .ok s' ∧
      ∃ r', getDoc s' "r1" = some r' ∧
        (∀ a ∈ r'.assignees, a.status = .pending) ∧
        sampleReviewMixed.updatedAt < r'.updatedAt :=
  ⟨by decide, by decide,
    markReviewAsUpdated_all_pending [("r1", sampleReviewMixed)] "r1" 9
      sampleReviewMixed (by decide) (by decide)⟩

/-- C4 counterexample: `markAsReviewed` invoked with a review id that
does not exist in the store does not fail with a NotFound error — it
returns successfully with the store unchanged, refuting the claim that
every review-mutating operation surfaces NotFound on a missing id. -/
theorem notFound_claim_counterexample :
    getDoc ([] : Store) "r1" = none ∧
    markAsReviewed ([] : Store) "r1" "a@x.com" 5 = .ok [] := by
  exact ⟨rfl, rfl⟩

/-- C4 as amended: on a review id absent from the store,
`updateReviewStatus`, `updateReviewAssignees` and `removeReviewer` fail
with NotFound, while `markAsReviewed` and `markReviewAsUpdated` return
successfully as silent no-ops; in every case the store is left
unchanged. -/
theorem missing_review_behavior (store : Store) (reviewId : String)
    (status : TerminalStatus) (assignees : List Assignee) (email : String)
    (now : Nat) (h : getDoc store reviewId = none) :
    updateReviewStatus store reviewId status now = .error .notFound ∧
    updateReviewAssignees store reviewId assignees now = .error .notFound ∧
    removeReviewer store reviewId email now = .error .notFound ∧
    markAsReviewed store reviewId email now = .ok store ∧
    markReviewAsUpdated store reviewId now = .ok store := by
  unfold updateReviewStatus updateReviewAssignees removeReviewer
    markAsReviewed markReviewAsUpdated
  rw [h]
  exact ⟨rfl, rfl, rfl, rfl, rfl⟩

/-- Witness for the amended C4 at a concrete store and missing id. -/
theorem missing_review_behavior_witness :
    getDoc [("r1", sampleReview)] "missing" = none ∧
    (updateReviewStatus [("r1", sampleReview)] "missing" .done 5 = .error .notFound ∧
     updateReviewAssignees [("r1", sampleReview)] "missing" [] 5 = .error .notFound ∧
     removeReviewer [("r1", sampleReview)] "missing" "a@x.com" 5 = .error .notFound ∧
     markAsReviewed [("r1", sampleReview)] "missing" "a@x.com" 5
        = .ok [("r1", sampleReview)] ∧
     markReviewAsUpdated [("r1", sampleReview)] "missing" 5
        = .ok [("r1", sampleReview)]) :=
  ⟨by decide,
    missing_review_behavior [("r1", sampleReview)] "missing" .done [] "a@x.com" 5
      (by decide)⟩

/-- Marking the same email reviewed twice over an assignee list is the
same as marking it once. -/
lemma reviewedMap_idem (l : List Assignee) (email : String) :
    (l.map (fun a => if a.email = email then { a with status := AssigneeStatus.reviewed } else a)).map
      (fun a => if a.email = email then { a with status := AssigneeStatus.reviewed } else a)
    = l.map (fun a => if a.email = email then { a with status := AssigneeStatus.reviewed } else a) := by
  rw [List.map_map]
  apply List.map_congr_left
  intro a _
  by_cases h : a.email = email <;> simp [h]

/-- After the conditional append performed by `markAsReviewed`, the
`reviewedBy` list contains the email. -/
lemma reviewedBy_contains_after (l : List String) (email : String) :
    (if l.contains email then l else l ++ [email]).contains email = true := by
  by_cases h : l.contains email <;> simp_all

/-- Updating a document without changing its time-stripped content
leaves the time-stripped store unchanged. -/
lemma stripStoreTimes_updateDoc_of (s : Store) (k : String) (f : Review → Review)
    (h : ∀ p ∈ s, p.1 = k → stripTimes (f p.2) = stripTimes p.2) :
    stripStoreTimes (updateDoc s k f) = stripStoreTimes s := by
  unfold stripStoreTimes updateDoc
  rw [List.map_map]
  apply List.map_congr_left
  intro p hp
  by_cases hk : p.1 = k
  · have hb : (p.1 == k) = true := by simpa using hk
    simp only [Function.comp_apply, hb, if_true]
    rw [h p hp hk]
  · simp [Function.comp_apply, hk]

/-- C5: for every review present in the store, calling `markAsReviewed`
twice in a row with the same email yields, timestamps abstracted, the
same store as calling it once. -/
theorem markAsReviewed_idempotent (store : Store) (reviewId email : String)
    (t1 t2 : Nat) (r : Review) (hget : getDoc store reviewId = some r) :
    ∃ s1 s2, markAsReviewed store reviewId email t1 = .ok s1 ∧
      markAsReviewed s1 reviewId email t2 = .ok s2 ∧
      stripStoreTimes s2 = stripStoreTimes s1 := by
  have h1 : markAsReviewed store reviewId email t1
      = .ok (updateDoc store reviewId (fun x =>
        { x with
          assignees := r.assignees.map (fun a =>
            if a.email = email then { a with status := AssigneeStatus.reviewed } else a),
          reviewedBy := if r.reviewedBy.contains email then r.reviewedBy
                        else r.reviewedBy ++ [email],
          updatedAt := t1 })) := by
    unfold markAsReviewed
    rw [hget]
  have hs1 : getDoc (updateDoc store reviewId (fun x =>
      { x with
        assignees := r.assignees.map (fun a =>
          if a.email = email then { a with status := AssigneeStatus.reviewed } else a),
        reviewedBy := if r.reviewedBy.contains email then r.reviewedBy
                      else r.reviewedBy ++ [email],
        updatedAt := t1 })) reviewId
      = some ({ r with
          assignees := r.assignees.map (fun a =>
            if a.email = email then { a with status := AssigneeStatus.reviewed } else a),
          reviewedBy := if r.reviewedBy.contains email then r.reviewedBy
                        else r.reviewedBy ++ [email],
          updatedAt := t1 }) := by
    rw [getDoc_updateDoc_self, hget]
    rfl
  have h2 : markAsReviewed (updateDoc store reviewId (fun x =>
      { x with
        assignees := r.assignees.map (fun a =>
          if a.email = email then { a with status := AssigneeStatus.reviewed } else a),
        reviewedBy := if r.reviewedBy.contains email then r.reviewedBy
                      else r.reviewedBy ++ [email],
        updatedAt := t1 })) reviewId email t2
      = .ok (updateDoc (updateDoc store reviewId (fun x =>
          { x with
            assignees := r.assignees.map (fun a =>
              if a.email = email then { a with status := AssigneeStatus.reviewed } else a),
            reviewedBy := if r.reviewedBy.contains email then r.reviewedBy
                          else r.reviewedBy ++ [email],
            updatedAt := t1 })) reviewId (fun x =>
          { x with
            assignees := r.assignees.map (fun a =>
              if a.email = email then { a with status := AssigneeStatus.reviewed } else a),
            reviewedBy := if r.reviewedBy.contains email then r.reviewedBy
                          else r.reviewedBy ++ [email],
            updatedAt := t2 })) := by
    unfold markAsReviewed
    rw [hs1]
    simp only [reviewedMap_idem, reviewedBy_contains_after, if_true]
  refine ⟨_, _, h1, h2, ?_⟩
  apply stripStoreTimes_updateDoc_of
  intro p hp hpk
  unfold updateDoc at hp
  rw [List.mem_map] at hp
  obtain ⟨q, hq, hpe⟩ := hp
  by_cases hk : q.1 = reviewId
  · simp only [hk, beq_self_eq_true, if_true] at hpe
    subst hpe
    rfl
  · have hb : (q.1 == reviewId) = false := by simpa using hk
    rw [hb] at hpe
    simp only [Bool.false_eq_true, if_false] at hpe
    subst hpe
    exact absurd hpk hk

/-- Witness for C5 at a concrete review with one pending assignee. -/
theorem markAsReviewed_idempotent_witness :
    getDoc [("r1", sampleReview)] "r1" = some sampleReview ∧
    ∃ s1 s2, markAsReviewed [("r1", sampleReview)] "r1" "b@x.com" 4 = .ok s1 ∧
      markAsReviewed s1 "r1" "b@x.com" 8 = .ok s2 ∧
      stripStoreTimes s2 = stripStoreTimes s1 :=
  ⟨by decide,
    markAsReviewed_idempotent [("r1", sampleReview)] "r1" "b@x.com" 4 8 sampleReview
      (by decide)⟩

/-- Reading back the updated room document. -/
lemma getRoomDoc_map_update (s : RoomStore) (k : String) (g : Room → Room) :
    getRoomDoc (s.map (fun p => if p.1 == k then (p.1, g p.2) else p)) k
      = (getRoomDoc s k).map g := by
  unfold getRoomDoc
  rw [find?_map_update]
  cases s.find? (fun p => p.1 == k) <;> rfl

/-- Finding in an appended list skips a prefix with no match. -/
lemma find?_append_of_none {α : Type} (l1 l2 : List α) (p : α → Bool)
    (h : l1.find? p = none) : (l1 ++ l2).find? p = l2.find? p := by
  induction l1 with
  | nil => rfl
  | cons a t ih =>
    cases hpa : p a
    · simp only [List.cons_append, List.find?, hpa] at h ⊢
      exact ih h
    · simp [List.find?, hpa] at h

/-- Cleaning does not touch the emails. -/
lemma cleanAllowedUsers_map_email (us : List AllowedUser) :
    (cleanAllowedUsers us).map AllowedUser.email = us.map AllowedUser.email := by
  unfold cleanAllowedUsers
  rw [List.map_map]
  apply List.map_congr_left
  intro u _
  simp only [Function.comp_apply]
  cases u.googleChatUserId with
  | none => rfl
  | some id => by_cases h : trimStr id = "" <;> simp [h]

/-- Every cleaned entry either lacks a `googleChatUserId` or carries one
that is not whitespace-only. -/
lemma cleanAllowedUsers_invariant (us : List AllowedUser) :
    ∀ u ∈ cleanAllowedUsers us,
      u.googleChatUserId = none ∨
      ∃ id, u.googleChatUserId = some id ∧ trimStr id ≠ "" := by
  intro u hu
  unfold cleanAllowedUsers at hu
  rw [List.mem_map] at hu
  obtain ⟨v, _, rfl⟩ := hu
  cases hid : v.googleChatUserId with
  | none => simp [hid]
  | some id =>
    by_cases h : trimStr id = ""
    · simp [hid, h]
    · refine Or.inr ⟨id, ?_, h⟩
      simp [hid, h]

/-- Extracting the rule-helper emails commutes with cleaning. -/
lemma extractAllowedUserEmails_clean (us : List AllowedUser) :
    extractAllowedUserEmails us
      = (cleanAllowedUsers us).map (fun u => toLowerStr u.email) := by
  unfold extractAllowedUserEmails
  have h := cleanAllowedUsers_map_email us
  calc us.map (fun user => toLowerStr user.email)
      = (us.map AllowedUser.email).map toLowerStr := by rw [List.map_map]; rfl
    _ = ((cleanAllowedUsers us).map AllowedUser.email).map toLowerStr := by rw [h]
    _ = (cleanAllowedUsers us).map (fun u => toLowerStr u.email) := by
        rw [List.map_map]; rfl

/-- C1 counterexample: an `updateRoom` call whose payload omits the
creator "a@x.com" from `allowedUsers` completes successfully and leaves
a stored room whose `createdBy` is "a@x.com" while `allowedUsers`
contains only "b@x.com" — the creator is not re-added by any write-path
enforcement. -/
theorem creator_in_allowedUsers_counterexample :
    updateRoom [("team-a", sampleRoom)] "team-a"
        ⟨none, none, some [⟨"b@x.com", none⟩], none⟩
      = .ok [("team-a",
          ⟨"team-a", "Team A", "", [⟨"b@x.com", none⟩], some ["b@x.com"],
            "a@x.com", 0⟩)] := by
  decide

/-- C1 as amended: `updateRoom` stores the caller's `allowedUsers`
payload verbatim apart from cleaning, preserving `createdBy` but not
re-inserting it — so the creator is in `allowedUsers` after the call
exactly when the payload listed them; the invariant is maintained only
at the UI caller, whose `handleRemoveUser` refuses to remove the
creator and therefore preserves the creator's membership. -/
theorem updateRoom_allowedUsers_as_payload (store : RoomStore) (slug : String)
    (updates : RoomUpdates) (us : List AllowedUser) (r : Room)
    (hget : getRoomDoc store slug = some r)
    (hus : updates.allowedUsers = some us) :
    (∃ store' r', updateRoom store slug updates = .ok store' ∧
      getRoomDoc store' slug = some r' ∧
      r'.createdBy = r.createdBy ∧
      r'.allowedUsers = cleanAllowedUsers us ∧
      r'.allowedUsers.map AllowedUser.email = us.map AllowedUser.email) ∧
    (∀ createdBy : String, ∀ users : List AllowedUser, ∀ email : String,
      (∃ u ∈ users, u.email = createdBy) →
      ∃ u ∈ handleRemoveUser createdBy users email, u.email = createdBy) := by
  constructor
  · have hrun : updateRoom store slug updates
        = .ok (store.map (fun p => if p.1 == slug then
            (p.1, applyRoomUpdates p.2
              { updates with
                allowedUsers := some (cleanAllowedUsers us),
                allowedUserEmails :=
                  some (extractAllowedUserEmails (cleanAllowedUsers us)) }) else p)) := by
      unfold updateRoom
      rw [hget, hus]
    refine ⟨_, applyRoomUpdates r
      { updates with
        allowedUsers := some (cleanAllowedUsers us),
        allowedUserEmails :=
          some (extractAllowedUserEmails (cleanAllowedUsers us)) },
      hrun, ?_, rfl, rfl, cleanAllowedUsers_map_email us⟩
    have hread := getRoomDoc_map_update store slug (fun x => applyRoomUpdates x
      { updates with
        allowedUsers := some (cleanAllowedUsers us),
        allowedUserEmails :=
          some (extractAllowedUserEmails (cleanAllowedUsers us)) })
    rw [hget] at hread
    exact hread
  · intro createdBy users email ⟨u, hu, hue⟩
    unfold handleRemoveUser
    by_cases h : email = createdBy
    · rw [if_pos h]
      exact ⟨u, hu, hue⟩
    · rw [if_neg h]
      refine ⟨u, ?_, hue⟩
      rw [List.mem_filter]
      refine ⟨hu, ?_⟩
      have : u.email ≠ email := by
        rw [hue]
        exact fun hc => h hc.symm
      simpa using this

/-- Witness for the amended C1 at the sample room. -/
theorem updateRoom_allowedUsers_as_payload_witness :
    getRoomDoc [("team-a", sampleRoom)] "team-a" = some sampleRoom ∧
    (RoomUpdates.mk none none (some [⟨"b@x.com", none⟩]) none).allowedUsers
      = some [⟨"b@x.com", none⟩] ∧
    ((∃ store' r',
        updateRoom [("team-a", sampleRoom)] "team-a"
          (RoomUpdates.mk none none (some [⟨"b@x.com", none⟩]) none) = .ok store' ∧
        getRoomDoc store' "team-a" = some r' ∧
        r'.createdBy = sampleRoom.createdBy ∧
        r'.allowedUsers = cleanAllowedUsers [⟨"b@x.com", none⟩] ∧
        r'.allowedUsers.map AllowedUser.email
          = [AllowedUser.mk "b@x.com" none].map AllowedUser.email) ∧
     (∀ createdBy : String, ∀ users : List AllowedUser, ∀ email : String,
        (∃ u ∈ users, u.email = createdBy) →
        ∃ u ∈ handleRemoveUser createdBy users email, u.email = createdBy)) :=
  ⟨by decide, by decide,
    updateRoom_allowedUsers_as_payload [("team-a", sampleRoom)] "team-a"
      (RoomUpdates.mk none none (some [⟨"b@x.com", none⟩]) none)
      [⟨"b@x.com", none⟩] sampleRoom (by decide) (by decide)⟩

/-- C8 counterexample: `addReview` stores the caller's assignee payload
verbatim, so a call whose payload carries a reviewed assignee creates a
review with a reviewed (not pending) assignee, refuting the claim that
every assignee of a newly created review has status pending. -/
theorem addReview_pending_counterexample :
    getDoc (addReview [] "r1" "team-a" "PR1" "http://x/1" "a@x.com"
        [⟨"b@x.com", .reviewed⟩] 7).1 "r1"
      = some ⟨"team-a", "PR1", "http://x/1", .active, "a@x.com", 7, 7,
          [⟨"b@x.com", .reviewed⟩], [], []⟩ := by
  decide

/-- C8 as amended: every `addReview` call creates the review with status
active, empty `reviewedBy` and `approvedBy` logs, both timestamps set to
the current time, and the assignees stored exactly as passed; along the
application's call path the payload is built by `handleSubmit` of
AddReviewForm, which maps every mentioned email to a pending assignee,
so every assignee of the created review is pending. -/
theorem addReview_spec (store : Store) (newId roomId title link createdBy : String)
    (mentions : List String) (now : Nat) :
    ∃ r : Review,
      (addReview store newId roomId title link createdBy
        (submitAssignees mentions) now).1 = store ++ [(newId, r)] ∧
      r.status = .active ∧
      (∀ a ∈ r.assignees, a.status = .pending) ∧
      r.createdAt = now ∧ r.updatedAt = now ∧
      r.reviewedBy = [] ∧ r.approvedBy = [] := by
  refine ⟨_, rfl, rfl, ?_, rfl, rfl, rfl, rfl⟩
  intro a ha
  unfold submitAssignees at ha
  rw [List.mem_map] at ha
  obtain ⟨e, _, rfl⟩ := ha
  rfl

/-- Witness for the amended C8 at a concrete call. -/
theorem addReview_spec_witness :
    ∃ r : Review,
      (addReview [] "r1" "team-a" "PR1" "http://x/1" "a@x.com"
        (submitAssignees ["b@x.com"]) 7).1 = [] ++ [("r1", r)] ∧
      r.status = .active ∧
      (∀ a ∈ r.assignees, a.status = .pending) ∧
      r.createdAt = 7 ∧ r.updatedAt = 7 ∧
      r.reviewedBy = [] ∧ r.approvedBy = [] :=
  addReview_spec [] "r1" "team-a" "PR1" "http://x/1" "a@x.com" ["b@x.com"] 7

/-- C10: after `createRoom`, and after every `updateRoom` whose update
rewrites `allowedUsers`, the stored room has no `allowedUsers` entry
with an undefined, null, empty or whitespace-only `googleChatUserId`
(the field is absent or a non-blank string), and its
`allowedUserEmails` helper equals the lower-cased emails of
`allowedUsers` in the same order. -/
theorem room_writes_clean_invariant (storeC storeU : RoomStore) (data : NewRoomData)
    (now : Nat) (slug : String) (updates : RoomUpdates) (us : List AllowedUser) :
    (∀ store', createRoom storeC data now = .ok store' →
      ∃ room', getRoomDoc store' data.slug = some room' ∧
        (∀ u ∈ room'.allowedUsers,
          u.googleChatUserId = none ∨
          ∃ id, u.googleChatUserId = some id ∧ trimStr id ≠ "") ∧
        room'.allowedUserEmails
          = some (room'.allowedUsers.map (fun u => toLowerStr u.email))) ∧
    (updates.allowedUsers = some us →
      ∀ store', updateRoom storeU slug updates = .ok store' →
      ∃ room', getRoomDoc store' slug = some room' ∧
        (∀ u ∈ room'.allowedUsers,
          u.googleChatUserId = none ∨
          ∃ id, u.googleChatUserId = some id ∧ trimStr id ≠ "") ∧
        room'.allowedUserEmails
          = some (room'.allowedUsers.map (fun u => toLowerStr u.email))) := by
  constructor
  · intro store' hok
    unfold createRoom at hok
    by_cases hex : (getRoomDoc storeC data.slug).isSome
    · rw [if_pos hex] at hok
      exact absurd hok (by simp)
    · rw [if_neg hex] at hok
      have hstore : store' = storeC ++ [(data.slug,
          { slug := data.slug, name := data.name, webhookUrl := data.webhookUrl,
            allowedUsers := cleanAllowedUsers data.allowedUsers,
            allowedUserEmails := some (extractAllowedUserEmails data.allowedUsers),
            createdBy := data.createdBy, createdAt := now })] := by
        cases hok
        rfl
      refine ⟨{ slug := data.slug, name := data.name, webhookUrl := data.webhookUrl,
                allowedUsers := cleanAllowedUsers data.allowedUsers,
                allowedUserEmails := some (extractAllowedUserEmails data.allowedUsers),
                createdBy := data.createdBy, createdAt := now },
        ?_, cleanAllowedUsers_invariant data.allowedUsers, ?_⟩
      · rw [hstore]
        unfold getRoomDoc
        rw [find?_append_of_none]
        · simp [List.find?]
        · unfold getRoomDoc at hex
          rw [Option.not_isSome_iff_eq_none, Option.map_eq_none'] at hex
          exact hex
      · rw [extractAllowedUserEmails_clean]
  · intro hus store' hok
    cases hg : getRoomDoc storeU slug with
    | none =>
      unfold updateRoom at hok
      rw [hg] at hok
      exact absurd hok (by simp)
    | some r0 =>
      have hrun : updateRoom storeU slug updates
          = .ok (storeU.map (fun p => if p.1 == slug then
              (p.1, applyRoomUpdates p.2
                { updates with
                  allowedUsers := some (cleanAllowedUsers us),
                  allowedUserEmails :=
                    some (extractAllowedUserEmails (cleanAllowedUsers us)) }) else p)) := by
        unfold updateRoom
        rw [hg, hus]
      rw [hrun] at hok
      have hstore : store' = storeU.map (fun p => if p.1 == slug then
          (p.1, applyRoomUpdates p.2
            { updates with
              allowedUsers := some (cleanAllowedUsers us),
              allowedUserEmails :=
                some (extractAllowedUserEmails (cleanAllowedUsers us)) }) else p) := by
        cases hok
        rfl
      refine ⟨applyRoomUpdates r0
          { updates with
            allowedUsers := some (cleanAllowedUsers us),
            allowedUserEmails :=
              some (extractAllowedUserEmails (cleanAllowedUsers us)) },
        ?_, cleanAllowedUsers_invariant us, rfl⟩
      rw [hstore]
      have hread := getRoomDoc_map_update storeU slug (fun x => applyRoomUpdates x
        { updates with
          allowedUsers := some (cleanAllowedUsers us),
          allowedUserEmails :=
            some (extractAllowedUserEmails (cleanAllowedUsers us)) })
      rw [hg] at hread
      exact hread

/-- Witness for C10: a concrete creation whose payload mixes a
whitespace-only id and a real one, and a concrete update whose payload
carries an empty-string id, both evaluated and fed to the theorem. -/
theorem room_writes_clean_invariant_witness :
    (∃ room', getRoomDoc [("team-a",
        Room.mk "team-a" "Team A" ""
          [⟨"A@x.com", none⟩, ⟨"b@x.com", some "42"⟩]
          (some ["a@x.com", "b@x.com"]) "a@x.com" 3)] "team-a" = some room' ∧
      (∀ u ∈ room'.allowedUsers,
        u.googleChatUserId = none ∨
        ∃ id, u.googleChatUserId = some id ∧ trimStr id ≠ "") ∧
      room'.allowedUserEmails
        = some (room'.allowedUsers.map (fun u => toLowerStr u.email))) ∧
    (∃ room', getRoomDoc [("team-a",
        Room.mk "team-a" "Team A" "" [⟨"C@x.com", none⟩]
          (some ["c@x.com"]) "a@x.com" 0)] "team-a" = some room' ∧
      (∀ u ∈ room'.allowedUsers,
        u.googleChatUserId = none ∨
        ∃ id, u.googleChatUserId = some id ∧ trimStr id ≠ "") ∧
      room'.allowedUserEmails
        = some (room'.allowedUsers.map (fun u => toLowerStr u.email))) :=
  ⟨(room_writes_clean_invariant [] [("team-a", sampleRoom)]
      (NewRoomData.mk "team-a" "Team A" ""
        [⟨"A@x.com", some " "⟩, ⟨"b@x.com", some "42"⟩] "a@x.com")
      3 "team-a" (RoomUpdates.mk none none (some [⟨"C@x.com", some ""⟩]) none)
      [⟨"C@x.com", some ""⟩]).1
    [("team-a",
        Room.mk "team-a" "Team A" ""
          [⟨"A@x.com", none⟩, ⟨"b@x.com", some "42"⟩]
          (some ["a@x.com", "b@x.com"]) "a@x.com" 3)] (by decide),
   (room_writes_clean_invariant [] [("team-a", sampleRoom)]
      (NewRoomData.mk "team-a" "Team A" ""
        [⟨"A@x.com", some " "⟩, ⟨"b@x.com", some "42"⟩] "a@x.com")
      3 "team-a" (RoomUpdates.mk none none (some [⟨"C@x.com", some ""⟩]) none)
      [⟨"C@x.com", some ""⟩]).2 (by decide)
    [("team-a",
        Room.mk "team-a" "Team A" "" [⟨"C@x.com", none⟩]
          (some ["c@x.com"]) "a@x.com" 0)] (by decide)⟩

/-! Lemmas about the mention formatter. -/

/-- Writing to a map never leaves it empty. -/
lemma assocSet_ne_nil {α : Type} (m : List (String × α)) (k : String) (v : α) :
    assocSet m k v ≠ [] := by
  unfold assocSet
  by_cases h : m.any (fun p => p.1 == k)
  · rw [if_pos h]
    intro hc
    rw [List.map_eq_nil_iff] at hc
    subst hc
    simp at h
  · rw [if_neg h]
    simp

/-- The fetch branch always marks the fetch as attempted. -/
lemma fetchStep_didFetch (m0 : StrMap) (sp : String) (cache : MentionCache)
    (now : Nat) (fr : StrMap) : (fetchStep m0 sp cache now fr).2.1 = true := by
  unfold fetchStep
  by_cases h : fr.isEmpty
  · rw [if_pos h]
  · rw [if_neg h]

/-- A fetch that resolves to nothing leaves the map as it was. -/
lemma fetchStep_map_of_empty (m0 : StrMap) (sp : String) (cache : MentionCache)
    (now : Nat) (fr : StrMap) (h : fr.isEmpty = true) :
    (fetchStep m0 sp cache now fr).1 = m0 := by
  unfold fetchStep
  rw [if_pos h]

/-- A cache-or-fetch step that reports an attempted fetch implies a
space name was extractable. -/
lemma withSpaceName_isSome (m0 : StrMap) (cache : MentionCache) (now : Nat)
    (fr : StrMap) (os : Option String)
    (h : (withSpaceName m0 cache now fr os).2.1 = true) : os.isSome = true := by
  cases os with
  | none => simp [withSpaceName] at h
  | some sp => rfl

/-- A cache consultation whose fetch resolved to nothing leaves the map
as it was. -/
lemma useCacheEntry_fetch_map (m0 : StrMap) (sp : String) (cache : MentionCache)
    (now : Nat) (fr : StrMap) (oc : Option StrMap)
    (h : (useCacheEntry m0 sp cache now fr oc).2.1 = true)
    (hf : fr.isEmpty = true) : (useCacheEntry m0 sp cache now fr oc).1 = m0 := by
  cases oc with
  | none => exact fetchStep_map_of_empty _ _ _ _ _ hf
  | some cached =>
    simp only [useCacheEntry] at h ⊢
    by_cases hexp : now < (assocGet cache.cacheExpiry sp).getD 0
    · rw [if_pos hexp] at h
      simp at h
    · rw [if_neg hexp]
      exact fetchStep_map_of_empty _ _ _ _ _ hf

/-- A space-name-gated step whose fetch resolved to nothing leaves the
map as it was. -/
lemma withSpaceName_fetch_map (m0 : StrMap) (cache : MentionCache) (now : Nat)
    (fr : StrMap) (os : Option String)
    (h : (withSpaceName m0 cache now fr os).2.1 = true)
    (hf : fr.isEmpty = true) : (withSpaceName m0 cache now fr os).1 = m0 := by
  cases os with
  | none => rfl
  | some sp =>
    simp only [withSpaceName] at h ⊢
    exact useCacheEntry_fetch_map _ _ _ _ _ _ h hf

/-- A fetch is attempted only when the explicit directory map is empty
and a non-empty webhook URL with an extractable space name was given. -/
lemma resolveStep_didFetch (allowedUsers : List AllowedUser)
    (webhookUrl : Option String) (cache : MentionCache) (now : Nat)
    (fetchResult : StrMap)
    (h : (resolveStep allowedUsers cache now fetchResult webhookUrl).2.1 = true) :
    (buildDirectoryMap allowedUsers).isEmpty = true ∧
    ∃ w, webhookUrl = some w ∧ w ≠ "" ∧ (extractSpaceName w).isSome = true := by
  cases webhookUrl with
  | none => simp [resolveStep] at h
  | some w =>
    simp only [resolveStep] at h
    by_cases hc : w ≠ "" ∧ (buildDirectoryMap allowedUsers).isEmpty = true
    · rw [if_pos hc] at h
      exact ⟨hc.2, w, rfl, hc.1, withSpaceName_isSome _ _ _ _ _ h⟩
    · rw [if_neg hc] at h
      simp at h

/-- When the attempted fetch resolves to nothing, the resolved map is
the explicit directory map. -/
lemma resolveStep_map_of_fetch_empty (allowedUsers : List AllowedUser)
    (webhookUrl : Option String) (cache : MentionCache) (now : Nat)
    (fetchResult : StrMap)
    (h : (resolveStep allowedUsers cache now fetchResult webhookUrl).2.1 = true)
    (hf : fetchResult.isEmpty = true) :
    (resolveStep allowedUsers cache now fetchResult webhookUrl).1
      = buildDirectoryMap allowedUsers := by
  cases webhookUrl with
  | none => simp [resolveStep] at h
  | some w =>
    simp only [resolveStep] at h ⊢
    by_cases hc : w ≠ "" ∧ (buildDirectoryMap allowedUsers).isEmpty = true
    · rw [if_pos hc] at h ⊢
      exact withSpaceName_fetch_map _ _ _ _ _ h hf
    · rw [if_neg hc] at h
      simp at h

/-- When the explicit directory map is non-empty, the whole cache-fetch
block is skipped and the resolved map is the directory map. -/
lemma resolveStep_map_of_nonempty (allowedUsers : List AllowedUser)
    (webhookUrl : Option String) (cache : MentionCache) (now : Nat)
    (fetchResult : StrMap)
    (h : (buildDirectoryMap allowedUsers).isEmpty = false) :
    (resolveStep allowedUsers cache now fetchResult webhookUrl).1
      = buildDirectoryMap allowedUsers := by
  cases webhookUrl with
  | none => rfl
  | some w =>
    simp only [resolveStep]
    have hn : ¬(w ≠ "" ∧ (buildDirectoryMap allowedUsers).isEmpty = true) := by
      intro hc
      rw [h] at hc
      exact absurd hc.2 (by simp)
    rw [if_neg hn]

/-- An allowed user with truthy email and id makes the directory-map
fold non-empty, whatever the accumulator. -/
lemma buildDirectoryMap_foldl_ne_nil :
    ∀ (us : List AllowedUser) (m : StrMap),
    (m ≠ [] ∨ ∃ u ∈ us, u.email ≠ "" ∧ ∃ id, u.googleChatUserId = some id ∧ id ≠ "") →
    us.foldl (fun m user =>
      match user.googleChatUserId with
      | some id =>
        if user.email ≠ "" ∧ id ≠ "" then assocSet m (toLowerStr user.email) id else m
      | none => m) m ≠ [] := by
  intro us
  induction us with
  | nil =>
    intro m h
    rcases h with h | ⟨u, hu, _⟩
    · exact h
    · exact absurd hu (List.not_mem_nil u)
  | cons v vs ih =>
    intro m h
    rw [List.foldl_cons]
    apply ih
    rcases h with h | ⟨u, hu, hue, id, hid, hidne⟩
    · left
      cases hv : v.googleChatUserId with
      | none => exact h
      | some id2 =>
        show (if v.email ≠ "" ∧ id2 ≠ "" then assocSet m (toLowerStr v.email) id2 else m) ≠ []
        by_cases hcond : v.email ≠ "" ∧ id2 ≠ ""
        · rw [if_pos hcond]
          exact assocSet_ne_nil _ _ _
        · rw [if_neg hcond]
          exact h
    · rcases List.mem_cons.mp hu with rfl | hvs
      · left
        rw [hid]
        show (if u.email ≠ "" ∧ id ≠ "" then assocSet m (toLowerStr u.email) id else m) ≠ []
        rw [if_pos ⟨hue, hidne⟩]
        exact assocSet_ne_nil _ _ _
      · exact Or.inr ⟨u, hvs, hue, id, hid, hidne⟩

/-- An allowed user with truthy email and id makes `buildDirectoryMap`
non-empty. -/
lemma buildDirectoryMap_ne_nil (us : List AllowedUser)
    (h : ∃ u ∈ us, u.email ≠ "" ∧ ∃ id, u.googleChatUserId = some id ∧ id ≠ "") :
    buildDirectoryMap us ≠ [] :=
  buildDirectoryMap_foldl_ne_nil us [] (Or.inr h)

/-- C7: `formatMentions` emits exactly one token per input email — the
resolved user id when the lower-cased email is in the resolved map, an
email-based fallback token otherwise — and returns the tokens
space-joined in input order; a duplicated input email yields its token
at both positions (no de-duplication). -/
theorem formatMentions_one_token_per_email (emails : List String)
    (allowedUsers : List AllowedUser) (webhookUrl accessToken : Option String)
    (cache : MentionCache) (now : Nat) (fetchResult : StrMap) :
    (formatMentions emails allowedUsers webhookUrl accessToken cache now fetchResult).text
      = String.intercalate " " (emails.map (mentionToken
          (formatMentions emails allowedUsers webhookUrl accessToken cache now
            fetchResult).resolvedMap)) ∧
    (emails.map (mentionToken
        (formatMentions emails allowedUsers webhookUrl accessToken cache now
          fetchResult).resolvedMap)).length = emails.length ∧
    (∀ i : Nat, (emails.map (mentionToken
        (formatMentions emails allowedUsers webhookUrl accessToken cache now
          fetchResult).resolvedMap)).get? i
      = (emails.get? i).map (mentionToken
          (formatMentions emails allowedUsers webhookUrl accessToken cache now
            fetchResult).resolvedMap)) :=
  ⟨rfl, List.length_map _ _, fun i => by
    rw [List.get?_eq_getElem?, List.get?_eq_getElem?, List.getElem?_map]⟩

/-- C6 counterexample: with an empty directory, a valid webhook URL and
NO access token, `formatMentions` still attempts the external fetch
(and, the fetch having resolved nobody, falls back to an email-based
mention token) — refuting the claim that the fetch is attempted only
when both a webhookUrl and an accessToken are available. -/
theorem fetch_without_token_counterexample :
    (formatMentions ["a@x.com"] []
      (some "https://chat.googleapis.com/v1/spaces/AAA/messages?key=k") none
      ⟨[], []⟩ 0 []).didFetch = true ∧
    (formatMentions ["a@x.com"] []
      (some "https://chat.googleapis.com/v1/spaces/AAA/messages?key=k") none
      ⟨[], []⟩ 0 []).text = "<users/a@x.com>" := by
  decide

/-- C6 as amended: the external fetch is attempted only when the map
built from explicit directory entries is empty and a non-empty webhook
URL with an extractable space name is available — an access token is
not required, it is merely forwarded to the fetch; and a fetch that
fails (resolving nobody) is swallowed: the function still returns a
result, an email-based mention token for every input. -/
theorem formatMentions_fetch_gating (emails : List String)
    (allowedUsers : List AllowedUser) (webhookUrl accessToken : Option String)
    (cache : MentionCache) (now : Nat) (fetchResult : StrMap) :
    ((formatMentions emails allowedUsers webhookUrl accessToken cache now
        fetchResult).didFetch = true →
      (buildDirectoryMap allowedUsers).isEmpty = true ∧
      ∃ w, webhookUrl = some w ∧ w ≠ "" ∧ (extractSpaceName w).isSome = true) ∧
    ((formatMentions emails allowedUsers webhookUrl accessToken cache now
        fetchResult).didFetch = true → fetchResult.isEmpty = true →
      (formatMentions emails allowedUsers webhookUrl accessToken cache now
        fetchResult).text
        = String.intercalate " " (emails.map (fun e => "<users/" ++ e ++ ">"))) := by
  constructor
  · intro h
    exact resolveStep_didFetch allowedUsers webhookUrl cache now fetchResult h
  · intro h hf
    have hm := resolveStep_map_of_fetch_empty allowedUsers webhookUrl cache now
      fetchResult h hf
    have hm0 : (buildDirectoryMap allowedUsers).isEmpty = true :=
      (resolveStep_didFetch allowedUsers webhookUrl cache now fetchResult h).1
    have hnil : buildDirectoryMap allowedUsers = [] := by
      cases hbm : buildDirectoryMap allowedUsers with
      | nil => rfl
      | cons x xs =>
        rw [hbm] at hm0
        simp [List.isEmpty] at hm0
    show String.intercalate " "
        (emails.map (mentionToken
          (resolveStep allowedUsers cache now fetchResult webhookUrl).1)) = _
    rw [hm, hnil]
    have hmap : List.map (mentionToken ([] : StrMap)) emails
        = List.map (fun e => "<users/" ++ e ++ ">") emails :=
      List.map_congr_left (fun e _ => rfl)
    rw [hmap]

/-- Witness for the amended C6: the concrete fetch-without-token run,
fed through the theorem. -/
theorem formatMentions_fetch_gating_witness :
    (buildDirectoryMap []).isEmpty = true ∧
    (formatMentions ["a@x.com"] []
      (some "https://chat.googleapis.com/v1/spaces/AAA/messages?key=k") none
      ⟨[], []⟩ 0 []).text
      = String.intercalate " " (["a@x.com"].map (fun e => "<users/" ++ e ++ ">")) :=
  ⟨rfl,
    (formatMentions_fetch_gating ["a@x.com"] []
      (some "https://chat.googleapis.com/v1/spaces/AAA/messages?key=k") none
      ⟨[], []⟩ 0 []).2 (by decide) rfl⟩

/-- C9: when the directory already carries an explicit, non-blank
`googleChatUserId` for every input email, the output of
`formatMentions` does not depend on the cache state — nor on the clock,
the access token, or what a fetch would have returned. -/
theorem formatMentions_cache_independent (emails : List String)
    (allowedUsers : List AllowedUser) (webhookUrl : Option String)
    (t1 t2 : Option String) (c1 c2 : MentionCache) (n1 n2 : Nat) (f1 f2 : StrMap)
    (hcov : ∀ e ∈ emails, ∃ u ∈ allowedUsers,
      toLowerStr u.email = toLowerStr e ∧ u.email ≠ "" ∧
      ∃ id, u.googleChatUserId = some id ∧ id ≠ "") :
    (formatMentions emails allowedUsers webhookUrl t1 c1 n1 f1).text
      = (formatMentions emails allowedUsers webhookUrl t2 c2 n2 f2).text := by
  cases emails with
  | nil => rfl
  | cons e es =>
    obtain ⟨u, hu, _, hue, id, hid, hidne⟩ := hcov e (List.mem_cons_self e es)
    have hne : buildDirectoryMap allowedUsers ≠ [] :=
      buildDirectoryMap_ne_nil allowedUsers ⟨u, hu, hue, id, hid, hidne⟩
    have hempty : (buildDirectoryMap allowedUsers).isEmpty = false := by
      cases hbm : buildDirectoryMap allowedUsers with
      | nil => exact absurd hbm hne
      | cons x xs => rfl
    have h1 := resolveStep_map_of_nonempty allowedUsers webhookUrl c1 n1 f1 hempty
    have h2 := resolveStep_map_of_nonempty allowedUsers webhookUrl c2 n2 f2 hempty
    show String.intercalate " "
        ((e :: es).map (mentionToken (resolveStep allowedUsers c1 n1 f1 webhookUrl).1))
      = String.intercalate " "
        ((e :: es).map (mentionToken (resolveStep allowedUsers c2 n2 f2 webhookUrl).1))
    rw [h1, h2]

/-- Witness for C9: one email fully covered by the directory, compared
across an empty cache and a populated cache carrying a conflicting id,
different clocks and different fetch outcomes. -/
theorem formatMentions_cache_independent_witness :
    (∀ e ∈ ["A@x.com"], ∃ u ∈ [AllowedUser.mk "a@x.com" (some "42")],
      toLowerStr u.email = toLowerStr e ∧ u.email ≠ "" ∧
      ∃ id, u.googleChatUserId = some id ∧ id ≠ "") ∧
    (formatMentions ["A@x.com"] [⟨"a@x.com", some "42"⟩]
      (some "https://chat.googleapis.com/v1/spaces/AAA/messages?key=k") none
      ⟨[], []⟩ 0 []).text
    = (formatMentions ["A@x.com"] [⟨"a@x.com", some "42"⟩]
      (some "https://chat.googleapis.com/v1/spaces/AAA/messages?key=k") (some "tok")
      ⟨[("AAA", [("a@x.com", "99")])], [("AAA", 1000000)]⟩ 7
      [("a@x.com", "99")]).text :=
  ⟨by decide,
    formatMentions_cache_independent ["A@x.com"] [⟨"a@x.com", some "42"⟩]
      (some "https://chat.googleapis.com/v1/spaces/AAA/messages?key=k")
      none (some "tok") ⟨[], []⟩
      ⟨[("AAA", [("a@x.com", "99")])], [("AAA", 1000000)]⟩ 0 7 [] [("a@x.com", "99")]
      (by decide)⟩

/-! Lemmas for the bounded done-queue (C2). -/

/-- Deleting each listed document in turn is filtering out their ids. -/
lemma foldl_deleteDoc (toDel : List (String × Review)) (s : Store) :
    toDel.foldl (fun acc p => deleteDoc acc p.1) s
      = s.filter (fun p => !(toDel.any (fun q => p.1 == q.1))) := by
  induction toDel generalizing s with
  | nil => simp
  | cons d t ih =>
    rw [List.foldl_cons, ih]
    unfold deleteDoc
    rw [List.filter_filter]
    apply List.filter_congr
    intro p _
    cases hpd : (p.1 == d.1) <;> cases hpt : t.any (fun q => p.1 == q.1) <;>
      simp [List.any_cons, hpd, hpt]

/-- Two filters commute. -/
lemma filter_comm {α : Type} (l : List α) (p q : α → Bool) :
    (l.filter p).filter q = (l.filter q).filter p := by
  rw [List.filter_filter, List.filter_filter]
  apply List.filter_congr
  intro a _
  cases hp : p a <;> cases hq : q a <;> simp [hp, hq]

/-- The status-in-room query commutes with filtering the store. -/
lemma byStatusInRoom_filter (s : Store) (q : String × Review → Bool)
    (roomId : String) (st : ReviewStatus) :
    byStatusInRoom (s.filter q) roomId st = (byStatusInRoom s roomId st).filter q := by
  unfold byStatusInRoom
  exact filter_comm s q (fun p => decide (p.2.roomId = roomId ∧ p.2.status = st))

/-- On a keyed list with unique ids split into a prefix and a suffix,
keeping the entries whose id is not among the prefix ids is exactly
keeping the suffix. -/
lemma filter_not_in_prefix (T R : List (String × Review))
    (hnd : (((T ++ R)).map Prod.fst).Nodup) :
    (T ++ R).filter (fun p => !(T.any (fun q => p.1 == q.1))) = R := by
  have hdisj : List.Disjoint (T.map Prod.fst) (R.map Prod.fst) := by
    rw [List.map_append] at hnd
    exact (List.nodup_append.mp hnd).2.2
  rw [List.filter_append]
  have h1 : T.filter (fun p => !(T.any (fun q => p.1 == q.1))) = [] := by
    rw [List.filter_eq_nil_iff]
    intro p hp
    have hany : T.any (fun q => p.1 == q.1) = true := by
      rw [List.any_eq_true]
      exact ⟨p, hp, by simp⟩
    simp [hany]
  have h2 : R.filter (fun p => !(T.any (fun q => p.1 == q.1))) = R := by
    rw [List.filter_eq_self]
    intro p hp
    have hany : T.any (fun q => p.1 == q.1) = false := by
      rw [List.any_eq_false]
      intro q hq hpq
      have hpq' : p.1 = q.1 := by simpa using hpq
      exact hdisj (hpq' ▸ List.mem_map_of_mem Prod.fst hq)
        (List.mem_map_of_mem Prod.fst hp)
    simp [hany]
  rw [h1, h2, List.nil_append]

/-- Elements of the first `k` entries are exactly those whose id occurs
among the first `k` entries' ids, on a list with unique ids. -/
lemma mem_take_of_id (L : List (String × Review)) (k : Nat)
    (hndL : (L.map Prod.fst).Nodup) (p : String × Review) (hp : p ∈ L)
    (h : (L.take k).any (fun q => p.1 == q.1) = true) : p ∈ L.take k := by
  rw [List.any_eq_true] at h
  obtain ⟨q, hq, hpq⟩ := h
  have hpq' : p.1 = q.1 := by simpa using hpq
  have hqL : q ∈ L := List.mem_of_mem_take hq
  have : p = q := List.inj_on_of_nodup_map hndL hp hqL hpq'
  exact this ▸ hq

/-- Specification of `manageDoneReviewsQueue` on a store with unique
document ids: afterwards the room holds at most 10 done reviews; every
survivor was already a done review of the room; every evicted done
review is permanently gone from the store and is no newer than any
survivor; when more than 10 existed exactly 10 survive; when at most 10
existed the store is untouched. -/
lemma manageDoneReviewsQueue_spec (s : Store) (roomId : String)
    (hnd : (s.map Prod.fst).Nodup) :
    (byStatusInRoom (manageDoneReviewsQueue s roomId) roomId .done).length ≤ 10 ∧
    (∀ p ∈ byStatusInRoom (manageDoneReviewsQueue s roomId) roomId .done,
       p ∈ byStatusInRoom s roomId .done) ∧
    (∀ p ∈ byStatusInRoom s roomId .done,
       p ∉ byStatusInRoom (manageDoneReviewsQueue s roomId) roomId .done →
       p ∉ manageDoneReviewsQueue s roomId ∧
       ∀ q ∈ byStatusInRoom (manageDoneReviewsQueue s roomId) roomId .done,
         p.2.updatedAt ≤ q.2.updatedAt) ∧
    ((byStatusInRoom s roomId .done).length > 10 →
       (byStatusInRoom (manageDoneReviewsQueue s roomId) roomId .done).length = 10) ∧
    ((byStatusInRoom s roomId .done).length ≤ 10 →
       manageDoneReviewsQueue s roomId = s) := by
  haveI : IsTotal (String × Review) (fun a b => a.2.updatedAt ≤ b.2.updatedAt) :=
    ⟨fun a b => Nat.le_total _ _⟩
  haveI : IsTrans (String × Review) (fun a b => a.2.updatedAt ≤ b.2.updatedAt) :=
    ⟨fun a b c => Nat.le_trans⟩
  have hperm : (reviewsByStatusOrdered s roomId .done).Perm
      (byStatusInRoom s roomId .done) := List.perm_insertionSort _ _
  have hlen : (reviewsByStatusOrdered s roomId .done).length
      = (byStatusInRoom s roomId .done).length := hperm.length_eq
  have hsorted : (reviewsByStatusOrdered s roomId .done).Sorted
      (fun a b => a.2.updatedAt ≤ b.2.updatedAt) := List.sorted_insertionSort _ _
  set L := reviewsByStatusOrdered s roomId .done with hL
  set D := byStatusInRoom s roomId .done with hD
  by_cases hn : L.length > 10
  · -- trimming case
    have hndL : (L.map Prod.fst).Nodup := by
      have hndD : (D.map Prod.fst).Nodup :=
        hnd.sublist (List.Sublist.map Prod.fst (List.filter_sublist s))
      exact ((hperm.map Prod.fst).nodup_iff).mpr hndD
    have hmanage : manageDoneReviewsQueue s roomId
        = s.filter (fun p => !((L.take (L.length - 10)).any (fun q => p.1 == q.1))) := by
      unfold manageDoneReviewsQueue
      rw [← hL, if_pos hn, foldl_deleteDoc]
    have hSD : byStatusInRoom (manageDoneReviewsQueue s roomId) roomId .done
        = D.filter (fun p => !((L.take (L.length - 10)).any (fun q => p.1 == q.1))) := by
      rw [hmanage, byStatusInRoom_filter, ← hD]
    have hkeep : L.filter (fun p => !((L.take (L.length - 10)).any (fun q => p.1 == q.1)))
        = L.drop (L.length - 10) := by
      have hx := filter_not_in_prefix (L.take (L.length - 10)) (L.drop (L.length - 10))
        (by rw [List.take_append_drop]; exact hndL)
      rw [List.take_append_drop] at hx
      exact hx
    have hSperm : (byStatusInRoom (manageDoneReviewsQueue s roomId) roomId .done).Perm
        (L.drop (L.length - 10)) := by
      rw [hSD, ← hkeep]
      exact (hperm.filter _).symm
    have hSlen : (byStatusInRoom (manageDoneReviewsQueue s roomId) roomId .done).length
        = 10 := by
      rw [hSperm.length_eq, List.length_drop]
      omega
    have hevict : ∀ p ∈ D,
        p ∉ byStatusInRoom (manageDoneReviewsQueue s roomId) roomId .done →
        p ∈ L.take (L.length - 10) ∧
        (L.take (L.length - 10)).any (fun q => p.1 == q.1) = true := by
      intro p hp hnp
      have hpL : p ∈ L := hperm.mem_iff.mpr hp
      cases hany : (L.take (L.length - 10)).any (fun q => p.1 == q.1) with
      | true => exact ⟨mem_take_of_id L _ hndL p hpL hany, rfl⟩
      | false =>
        exfalso
        apply hnp
        rw [hSD]
        rw [List.mem_filter]
        exact ⟨hp, by simp [hany]⟩
    refine ⟨by omega, ?_, ?_, fun _ => hSlen, ?_⟩
    · intro p hp
      rw [hSD] at hp
      exact (List.mem_filter.mp hp).1
    · intro p hp hnp
      obtain ⟨hptake, hany⟩ := hevict p hp hnp
      constructor
      · intro hpin
        rw [hmanage, List.mem_filter] at hpin
        have := hpin.2
        simp [hany] at this
      · intro q hq
        have hqkeep : q ∈ L.drop (L.length - 10) := hSperm.mem_iff.mp hq
        have hpw : (L.take (L.length - 10) ++ L.drop (L.length - 10)).Pairwise
            (fun a b => a.2.updatedAt ≤ b.2.updatedAt) := by
          rw [List.take_append_drop]
          exact hsorted
        exact (List.pairwise_append.mp hpw).2.2 p hptake q hqkeep
    · intro hle
      exact absurd hle (by omega)
  · -- nothing-to-trim case
    have hmanage : manageDoneReviewsQueue s roomId = s := by
      unfold manageDoneReviewsQueue
      rw [← hL, if_neg hn]
    rw [hmanage, ← hD]
    refine ⟨by omega, fun p hp => hp, fun p hp hnp => absurd hp hnp,
      fun hgt => by omega, fun _ => rfl⟩

/-- C2: for every review present in a store with unique document ids,
`updateReviewStatus(id, done)` succeeds and — writing `mid` for the
store right after the status write — the done reviews of the room then
number at most 10; each survivor was a done review of `mid`; each
evicted done review of `mid` is permanently gone from the resulting
store and is no newer (by `updatedAt`) than any survivor; exactly 10
survive when `mid` held more than 10; and nothing at all is deleted
when it held at most 10. Applied after each call of a sequence of such
calls, this keeps the room's done count bounded by 10 with
oldest-first eviction. -/
theorem done_queue_bound (store : Store) (reviewId : String) (now : Nat) (r : Review)
    (hnd : (store.map Prod.fst).Nodup)
    (hget : getDoc store reviewId = some r) :
    ∃ store', updateReviewStatus store reviewId .done now = .ok store' ∧
      ∀ mid, mid = updateDoc store reviewId (fun x =>
          { x with status := ReviewStatus.done, updatedAt := now }) →
        (byStatusInRoom store' r.roomId .done).length ≤ 10 ∧
        (∀ p ∈ byStatusInRoom store' r.roomId .done,
           p ∈ byStatusInRoom mid r.roomId .done) ∧
        (∀ p ∈ byStatusInRoom mid r.roomId .done,
           p ∉ byStatusInRoom store' r.roomId .done →
           p ∉ store' ∧
           ∀ q ∈ byStatusInRoom store' r.roomId .done,
             p.2.updatedAt ≤ q.2.updatedAt) ∧
        ((byStatusInRoom mid r.roomId .done).length > 10 →
           (byStatusInRoom store' r.roomId .done).length = 10) ∧
        ((byStatusInRoom mid r.roomId .done).length ≤ 10 → store' = mid) := by
  have hrun : updateReviewStatus store reviewId .done now
      = .ok (manageDoneReviewsQueue (updateDoc store reviewId (fun x =>
          { x with status := ReviewStatus.done, updatedAt := now })) r.roomId) := by
    unfold updateReviewStatus
    rw [hget]
    rfl
  refine ⟨_, hrun, ?_⟩
  intro mid hmid
  subst hmid
  have hndmid : ((updateDoc store reviewId (fun x =>
      { x with status := ReviewStatus.done, updatedAt := now })).map Prod.fst).Nodup := by
    rw [map_fst_updateDoc]
    exact hnd
  exact manageDoneReviewsQueue_spec _ r.roomId hndmid

/-- Witness for C2 at a one-review store. -/
theorem done_queue_bound_witness :
    (([("r1", sampleReview)] : Store).map Prod.fst).Nodup ∧
    getDoc [("r1", sampleReview)] "r1" = some sampleReview ∧
    ∃ store', updateReviewStatus [("r1", sampleReview)] "r1" .done 5 = .ok store' ∧
      ∀ mid, mid = updateDoc [("r1", sampleReview)] "r1" (fun x =>
          { x with status := ReviewStatus.done, updatedAt := 5 }) →
        (byStatusInRoom store' sampleReview.roomId .done).length ≤ 10 ∧
        (∀ p ∈ byStatusInRoom store' sampleReview.roomId .done,
           p ∈ byStatusInRoom mid sampleReview.roomId .done) ∧
        (∀ p ∈ byStatusInRoom mid sampleReview.roomId .done,
           p ∉ byStatusInRoom store' sampleReview.roomId .done →
           p ∉ store' ∧
           ∀ q ∈ byStatusInRoom store' sampleReview.roomId .done,
             p.2.updatedAt ≤ q.2.updatedAt) ∧
        ((byStatusInRoom mid sampleReview.roomId .done).length > 10 →
           (byStatusInRoom store' sampleReview.roomId .done).length = 10) ∧
        ((byStatusInRoom mid sampleReview.roomId .done).length ≤ 10 → store' = mid) :=
  ⟨by decide, by decide,
    done_queue_bound [("r1", sampleReview)] "r1" 5 sampleReview (by decide) (by decide)⟩

end ReviewManager
